import Mathlib

/-!
Verification of the ml-video-platform core against its specification.

The development shallowly embeds the parts of the Python source that the
spec's testable properties talk about:

* `src/app/api/search.py` (`search_videos`): the search ranker — candidate
  pool sizing, threshold filtering, grouping by video, per-video caps and
  the video-count cap.
* `src/worker/worker.py` (`update_job_status`, `store_frame_embeddings`,
  `process_message`, the polling loop in `main`): the job pipeline.
* `src/worker/video_analyzer.py` (`generate_frame_embeddings`): frame
  batching and the empty-input behaviour of `np.vstack`.
* `src/app/api/jobs.py` (`delete_job`) and `src/app/api/videos.py`
  (`delete_video`): the deletion guard.
* `src/app/pinecone_client.py` (`upsert_embeddings`): vector-index writes,
  batched at 100 per call.

Similarity scores, timestamps and embedding entries are modelled as
rationals: none of the verified properties depend on floating-point
rounding, only on comparisons, counting and ordering.  External effects
(S3, SQS, the CLIP model, cv2 decoding) are modelled as explicit inputs;
database and Pinecone state are passed explicitly.
-/

/-! ## Search ranker (src/app/api/search.py) -/

/-- One raw match from the vector index, as consumed by `search_videos`:
`frame_id` is `m.get("frame_id")`, `score` is `m.get("score")` (missing
scores default to 0.0 in the source), and the `md_*` fields are the keys
of `m.get("metadata") or {}` (a missing metadata dict is the same as all
keys missing). -/
structure Candidate where
  frame_id : Option String
  score : Option ℚ
  md_video_id : Option String
  md_video_filename : Option String
  md_timestamp : Option ℚ
  md_frame_index : Option Int
deriving DecidableEq, Repr

/-- One entry of a returned video group's `matches` list (a Lean keyword, hence the field name `matchList` here).  The derived
`time_formatted` display string is not modelled (no claim concerns it). -/
structure SearchMatch where
  frame_id : Option String
  frame_index : Int
  timestamp : ℚ
  similarity_score : ℚ
deriving DecidableEq, Repr

/-- One value of the `video_results` dict: a per-video result group. -/
structure VideoGroup where
  video_id : String
  video_filename : String
  matchList : List SearchMatch
deriving DecidableEq, Repr, Inhabited

/-- The fields of the `SearchResponse` JSON body that carry data
(the echoed `query` string is omitted). -/
structure RankResponse where
  total_videos : Nat
  total_matches : Nat
  results : List VideoGroup
  average_similarity : ℚ
deriving DecidableEq, Repr

/-- Python truthiness of `md.get("video_id")`: the candidate is skipped
when the key is absent or the string is empty (`if not video_id`). -/
def candVid (m : Candidate) : Option String :=
  match m.md_video_id with
  | none => none
  | some v => if v = "" then none else some v

/-- Membership test `video_id in video_results` (insertion-ordered dict as a list). -/
def hasGroup (gs : List VideoGroup) (vid : String) : Bool :=
  gs.any (fun g => g.video_id == vid)

/-- Lookup of `video_results[video_id]["matches"]`. -/
def groupMatches (gs : List VideoGroup) (vid : String) : List SearchMatch :=
  ((gs.find? (fun g => g.video_id == vid)).map VideoGroup.matchList).getD []

/-- Append a match to the group owned by `vid`, leaving other groups
unchanged (dict-entry mutation). -/
def appendMatch (gs : List VideoGroup) (vid : String) (m : SearchMatch) :
    List VideoGroup :=
  gs.map (fun g =>
    if g.video_id == vid then { g with matchList := g.matchList ++ [m] } else g)

/-- State of the grouping loop: the insertion-ordered `video_results` dict
plus whether the `break` was taken. -/
structure RankState where
  groups : List VideoGroup
  brk : Bool
deriving DecidableEq, Repr

/-- Python truthiness of `md.get("video_filename")`: `or "unknown"`. -/
def candFilename (m : Candidate) : String :=
  match m.md_video_filename with
  | none => "unknown"
  | some f => if f = "" then "unknown" else f

/-- The match dict appended to a group (src/app/api/search.py
lines 115-123). -/
def mkMatch (m : Candidate) : SearchMatch :=
  { frame_id := m.frame_id
    frame_index := m.md_frame_index.getD 0
    timestamp := m.md_timestamp.getD 0
    similarity_score := m.score.getD 0 }

/-- Insertion `if video_id not in video_results: video_results[video_id] = ...`. -/
def ensureGroup (gs : List VideoGroup) (vid filename : String) :
    List VideoGroup :=
  if hasGroup gs vid then gs else gs ++ [⟨vid, filename, []⟩]

/-- One iteration of the `for m in filtered` loop of `search_videos`
(src/app/api/search.py lines 91-131), including the dead
`continue` guard (the group for `vid` is inserted just before the guard
tests membership, so the guard can never fire) and the early-stop
`break` once `max_videos` groups exist and all groups are full. -/
def rankStep (maxVideos maxPerVideo : Nat) (s : RankState) (m : Candidate) :
    RankState :=
  if s.brk then s else
  match candVid m with
  | none => s
  | some vid =>
    let gs0 := ensureGroup s.groups vid (candFilename m)
    if maxVideos ≤ gs0.length ∧ ¬ hasGroup gs0 vid then { s with groups := gs0 }
    else if maxPerVideo ≤ (groupMatches gs0 vid).length then
      { s with groups := gs0 }
    else
      let gs1 := appendMatch gs0 vid (mkMatch m)
      ⟨gs1, decide (maxVideos ≤ gs1.length) &&
        gs1.all (fun g => maxPerVideo ≤ g.matchList.length)⟩

/-- The ranking portion of `search_videos` (src/app/api/search.py lines
77-153): empty-pool early return, threshold filter, grouping loop,
truncation of the dict's values to `max_videos`, and the aggregate
counters (`np.mean` over all returned scores, 0.0 when none). -/
def search_videos (threshold : ℚ) (maxPerVideo maxVideos : Nat)
    (pool : List Candidate) : RankResponse :=
  if pool.isEmpty then ⟨0, 0, [], 0⟩
  else
    let filtered := pool.filter (fun m => threshold ≤ m.score.getD 0)
    let final := filtered.foldl (rankStep maxVideos maxPerVideo) ⟨[], false⟩
    let results := final.groups.take maxVideos
    let total := (results.map (fun g => g.matchList.length)).sum
    let scoreSum :=
      (results.map (fun g => (g.matchList.map SearchMatch.similarity_score).sum)).sum
    ⟨results.length, total, results, if 0 < total then scoreSum / total else 0⟩

/-- Candidate-pool sizing from `search_videos` (src/app/api/search.py
lines 60-61): `desired = max_videos * max_results_per_video`;
`top_k = min(max(desired * 5, 50), 500)`. -/
def search_top_k (maxVideos maxPerVideo : Nat) : Nat :=
  min (max (maxVideos * maxPerVideo * 5) 50) 500

/-- The spec's formula, written as the spec words it:
`clamp(desired_yield × 5, 50, 500)` with floor 50 and ceiling 500. -/
def clampSpec (lo hi x : Nat) : Nat := max lo (min x hi)

/-- Scores of a group's matches, in list order. -/
def groupScores (g : VideoGroup) : List ℚ :=
  g.matchList.map SearchMatch.similarity_score

/-- Number of candidates in `l` owned (with a truthy `video_id`) by `vid`. -/
def countVid (l : List Candidate) (vid : String) : Nat :=
  (l.filter (fun m => candVid m == some vid)).length

/-- A frame of video A scoring 0.5. -/
def candLow : Candidate :=
  ⟨some "A_frame_0", some (mkRat 1 2), some "A", some "a.mp4", some 0, some 0⟩

/-- A frame of video A scoring 0.9. -/
def candHigh : Candidate :=
  ⟨some "A_frame_1", some (mkRat 9 10), some "A", some "a.mp4", some 1, some 1⟩

/-- Loop invariant of the grouping loop, relative to the processed prefix
`done` of the filtered candidate list: while the loop is running every
group holds exactly `min mp` (its owner's tally) matches and unseen
videos have tally zero; after the `break` every group is exactly full;
and a group never holds more matches than its owner's tally. -/
def RankInv (mp : Nat) (done : List Candidate) (s : RankState) : Prop :=
  (∀ g ∈ s.groups, g.matchList.length ≤ countVid done g.video_id) ∧
  (s.brk = false →
    (∀ g ∈ s.groups,
      g.matchList.length = min mp (countVid done g.video_id)) ∧
    (∀ v, hasGroup s.groups v = false → countVid done v = 0)) ∧
  (s.brk = true → ∀ g ∈ s.groups, g.matchList.length = mp)

/-! ## Data model (src/app/models.py) -/

/-- The `JobStatus` enumeration. -/
inductive JobStatus where
  | pending
  | processing
  | completed
  | failed
deriving DecidableEq, Repr

/-- A `processing_jobs` row.  `created_at`/`updated_at` (server-managed)
and the always-empty `results` JSON are not modelled; datetimes are
abstract ticks. -/
structure Job where
  id : String
  video_id : String
  status : JobStatus
  started_at : Option Nat
  completed_at : Option Nat
  error_message : Option String
  processing_time_seconds : Option Nat
  frames_processed : Option Nat
  embeddings_stored : Option Nat
deriving DecidableEq, Repr

/-- The row created by job submission (`status=JobStatus.PENDING`, all
other mutable columns NULL). -/
def newJob (jid vid : String) : Job :=
  ⟨jid, vid, JobStatus.pending, none, none, none, none, none, none⟩

/-- A `videos` row (only the columns the verified paths touch). -/
structure VideoRow where
  id : String
  duration_seconds : Option ℚ
deriving DecidableEq, Repr

/-- A `video_frames` row. -/
structure FrameRow where
  video_id : String
  frame_index : Nat
  timestamp : ℚ
  embedding : List ℚ
deriving DecidableEq, Repr

/-- One vector in the Pinecone index: id, values, and the `video_id`
metadata key that scopes deletions and search filters. -/
structure VecRow where
  video_id : String
  vec_id : String
  values : List ℚ
deriving DecidableEq, Repr

/-- The persistent state every verified operation reads or writes: the
job and video tables, the frame table, and the external vector index. -/
structure WorldState where
  jobs : List Job
  videos : List VideoRow
  framesDb : List FrameRow
  index : List VecRow
deriving DecidableEq, Repr

/-! ## Worker helpers (src/worker/worker.py, src/worker/video_analyzer.py,
src/app/pinecone_client.py) -/

/-- The keyword arguments `update_job_status` may receive; `none` means
the keyword was not passed. -/
structure JobFields where
  started_at : Option Nat := none
  completed_at : Option Nat := none
  error_message : Option String := none
  processing_time_seconds : Option Nat := none
  frames_processed : Option Nat := none
  embeddings_stored : Option Nat := none
deriving DecidableEq, Repr

/-- A column after `setattr`: the supplied value when the keyword was
passed, the previous value otherwise. -/
def setIfGiven (new old : Option α) : Option α :=
  match new with
  | none => old
  | some v => some v

/-- Application of `setattr(job, key, value)` for each supplied keyword. -/
def applyFields (j : Job) (f : JobFields) : Job :=
  { j with
    started_at := setIfGiven f.started_at j.started_at
    completed_at := setIfGiven f.completed_at j.completed_at
    error_message := setIfGiven f.error_message j.error_message
    processing_time_seconds :=
      setIfGiven f.processing_time_seconds j.processing_time_seconds
    frames_processed := setIfGiven f.frames_processed j.frames_processed
    embeddings_stored := setIfGiven f.embeddings_stored j.embeddings_stored }

/-- Function `update_job_status` (src/worker/worker.py lines 47-63): look the job
up by primary key; if present, set the requested status — with NO check
of the current status — apply the supplied fields and commit, returning
the job; if absent, log a warning and return None.  The Bool reports
whether a row was written.  (Job ids are primary keys, so updating every
row with the id equals updating the first.) -/
def update_job_status (jobs : List Job) (jobId : String) (st : JobStatus)
    (f : JobFields) : List Job × Bool :=
  match jobs.find? (fun j => j.id == jobId) with
  | none => (jobs, false)
  | some _ =>
    (jobs.map (fun j =>
      if j.id == jobId then applyFields { j with status := st } f else j),
     true)

/-- Function `store_frame_embeddings` (src/worker/worker.py lines 66-99): delete
every existing frame row of the video, then bulk-insert one row per
(frame_data, embedding) pair and return the inserted count.  At the only
call site the two lists have equal length — one embedding per sampled
frame — where the source's indexed access `embeddings_array[i]` agrees
with the zip. -/
def store_frame_embeddings (framesDb : List FrameRow) (videoId : String)
    (framesData : List (Nat × ℚ)) (embs : List (List ℚ)) :
    List FrameRow × Nat :=
  let remaining := framesDb.filter (fun r => ¬ r.video_id == videoId)
  let newRows := (framesData.zip embs).map
    (fun p => FrameRow.mk videoId p.1.1 p.1.2 p.2)
  (remaining ++ newRows, newRows.length)

/-- Fuel-indexed chunking: the fuel starts at the list length, and each
step with a positive chunk size consumes at least one element. -/
def chunksOfGo (n : Nat) : Nat → List α → List (List α)
  | 0, _ => []
  | _, [] => []
  | fuel + 1, l => l.take n :: chunksOfGo n fuel (l.drop n)

/-- The slices `lst[i:i+n]` for `i in range(0, len(lst), n)`. -/
def chunksOf (n : Nat) (l : List α) : List (List α) :=
  chunksOfGo n l.length l

/-- One `index.upsert` of a single vector: overwrite the vector with the
same id if present, otherwise insert. -/
def upsertOne (ix : List VecRow) (v : VecRow) : List VecRow :=
  if ix.any (fun r => r.vec_id == v.vec_id) then
    ix.map (fun r => if r.vec_id == v.vec_id then v else r)
  else ix ++ [v]

/-- Function `upsert_embeddings` (src/app/pinecone_client.py lines 28-75): write
the given vectors to the index in batches of at most 100 per call and
return the upserted count.  NOTE: nothing in the repository calls this
function — in particular the worker does not. -/
def upsert_embeddings (ix : List VecRow) (vecs : List VecRow) :
    List VecRow × Nat :=
  ((chunksOf 100 vecs).foldl (fun acc batch => batch.foldl upsertOne acc) ix,
   vecs.length)

/-- Function `delete_video_embeddings` (src/app/pinecone_client.py lines 118-129):
delete every vector whose `video_id` metadata matches. -/
def delete_video_embeddings (ix : List VecRow) (videoId : String) :
    List VecRow :=
  ix.filter (fun r => ¬ r.video_id == videoId)

/-- What `extract_frames` (src/worker/video_analyzer.py lines 26-65)
returns when the decoder opens the file: the sampled frames paired with
their timestamps — the source appends to `frames` and `timestamps` in
lockstep — plus the computed duration.  Frame pixel data is abstracted to
a Nat handle. -/
structure ExtractOut where
  pairs : List (Nat × ℚ)
  duration : ℚ
deriving DecidableEq, Repr

/-- Function `generate_frame_embeddings` (src/worker/video_analyzer.py lines
67-85): encode the frames in batches of 8 — the CLIP image encoder,
returning one vector per image, is the `encode` parameter — collecting
one array per batch, then `np.vstack` them; `np.vstack([])` raises
`ValueError: need at least one array to concatenate`. -/
def generate_frame_embeddings (encode : Nat → List ℚ) (frames : List Nat) :
    Except String (List (List ℚ)) :=
  let embeddings := (chunksOf 8 frames).map (fun batch => batch.map encode)
  if embeddings.isEmpty then
    Except.error "need at least one array to concatenate"
  else
    Except.ok embeddings.flatten

/-! ## Worker message processing (src/worker/worker.py lines 102-197) -/

/-- The result of `json.loads(message['Body'])` plus the four key reads:
`malformed` is a body that fails to parse as JSON at all; `fields`
carries the values of the four expected keys, `none` marking an absent
key (whose read raises KeyError). -/
inductive MsgBody where
  | malformed
  | fields (jobId videoId s3Key s3Bucket : Option String)
deriving DecidableEq, Repr

/-- The external nondeterminism of one `process_message` run: whether the
S3 download succeeds, what the decoder yields for the downloaded file,
the CLIP image encoder, and the clock. -/
structure WorkerEnv where
  downloadOk : Bool
  extract : Except String ExtractOut
  encode : Nat → List ℚ
  now : Nat

/-- Everything observable about one `process_message` run: the final
state, the returned Bool, whether the SQS message was deleted (acked),
whether the scoped temporary file was created and whether it was removed
(`os.unlink`), and the job-status writes that actually hit the database,
in order. -/
structure MsgResult where
  world : WorldState
  success : Bool
  acked : Bool
  tmpCreated : Bool
  tmpRemoved : Bool
  statusWrites : List (String × JobStatus)
deriving Repr

/-- The `except` block of `process_message` (src/worker/worker.py lines
181-197): re-parse the body; if that itself fails, or no `job_id` can be
salvaged with `.get`, only log; otherwise best-effort mark the job
FAILED.  Either way return False, so the message is NOT deleted from the
queue.  The temporary file, if one was created, is not removed. -/
def handleFailure (env : WorkerEnv) (body : MsgBody) (w : WorldState)
    (err : String) (tmpCreated : Bool)
    (writes : List (String × JobStatus)) : MsgResult :=
  match body with
  | MsgBody.malformed => ⟨w, false, false, tmpCreated, false, writes⟩
  | MsgBody.fields jobId _ _ _ =>
    match jobId with
    | none => ⟨w, false, false, tmpCreated, false, writes⟩
    | some jid =>
      let r := update_job_status w.jobs jid JobStatus.failed
        { completed_at := some env.now, error_message := some err }
      ⟨{ w with jobs := r.1 }, false, false, tmpCreated, false,
        writes ++ (if r.2 then [(jid, JobStatus.failed)] else [])⟩

/-- Function `process_message` (src/worker/worker.py lines 102-197).  The success
path: read the four body keys (KeyError on a missing key jumps to the
handler before anything is written), set the job PROCESSING
unconditionally, create the scoped temporary file, download
(failure raises with the file left behind), decode and sample frames,
embed them in batches of 8, replace the video's frame rows, set the
video's duration if it was NULL, unlink the temporary file, set the job
COMPLETED with its metrics, and delete the message.  Every failure after
parsing lands in `handleFailure`.  Timing values are abstract; the
vector index is carried through untouched, exactly as in the source,
which contains no Pinecone call. -/
def process_message (env : WorkerEnv) (body : MsgBody) (w : WorldState) :
    MsgResult :=
  match body with
  | MsgBody.malformed =>
    handleFailure env body w "Expecting value: line 1 column 1" false []
  | MsgBody.fields jobId videoId s3Key s3Bucket =>
    match jobId, videoId, s3Key, s3Bucket with
    | some jid, some vid, some _, some _ =>
      let r1 := update_job_status w.jobs jid JobStatus.processing
        { started_at := some env.now }
      let w1 := { w with jobs := r1.1 }
      let writes1 := if r1.2 then [(jid, JobStatus.processing)] else []
      if ¬ env.downloadOk then
        handleFailure env body w1 "S3 download failed" true writes1
      else
        match env.extract with
        | Except.error e => handleFailure env body w1 e true writes1
        | Except.ok ex =>
          match generate_frame_embeddings env.encode
              (ex.pairs.map Prod.fst) with
          | Except.error e => handleFailure env body w1 e true writes1
          | Except.ok embs =>
            let framesData := ex.pairs.enum.map (fun p => (p.1, p.2.2))
            let r2 := store_frame_embeddings w1.framesDb vid framesData embs
            let w2 := { w1 with framesDb := r2.1 }
            let setDur := fun (v : VideoRow) =>
              if v.id == vid && v.duration_seconds.isNone then
                { v with duration_seconds := some ex.duration }
              else v
            let w3 := { w2 with videos := w2.videos.map setDur }
            let r3 := update_job_status w3.jobs jid JobStatus.completed
              { completed_at := some env.now
                processing_time_seconds := some env.now
                frames_processed := some ex.pairs.length
                embeddings_stored := some r2.2 }
            ⟨{ w3 with jobs := r3.1 }, true, true, true, true,
              writes1 ++ (if r3.2 then [(jid, JobStatus.completed)] else [])⟩
    | _, _, _, _ => handleFailure env body w "KeyError" false []

/-- Job submission (src/app/api/jobs.py lines 38-50 and the upload
auto-create in src/app/api/videos.py lines 140-148): a PENDING row is
inserted and committed. -/
def create_job (jobs : List Job) (jid vid : String) :
    List Job × List (String × JobStatus) :=
  (jobs ++ [newJob jid vid], [(jid, JobStatus.pending)])

/-! ## Worker polling loop (src/worker/worker.py lines 234-290) -/

/-- What one iteration of the `while not shutdown_flag` loop observes:
either a poll result — the per-message `process_message` return values,
an empty list meaning no messages — or an exception escaping the `try`
block (a loop-level error). -/
inductive PollEvent where
  | batch (results : List Bool)
  | loopError
deriving DecidableEq, Repr

/-- The loop's mutable state: the `consecutive_errors` counter and
whether `sys.exit(1)` ran. -/
structure LoopState where
  consecutiveErrors : Nat
  exited : Bool
deriving DecidableEq, Repr

/-- Threshold `max_consecutive_errors = 10` (src/worker/worker.py line 235). -/
def maxConsecutiveErrors : Nat := 10

/-- One iteration of the polling loop: a non-empty batch resets the
counter to 0 and then increments it once per failed message, with no
exit check; an empty poll sleeps; a loop-level exception increments the
counter and exits non-zero at the threshold. -/
def loopStep (s : LoopState) (e : PollEvent) : LoopState :=
  if s.exited then s else
  match e with
  | PollEvent.batch rs =>
    if rs.isEmpty then s
    else
      let afterBatch := rs.foldl (fun c ok => if ok then c else c + 1) 0
      { s with consecutiveErrors := afterBatch }
  | PollEvent.loopError =>
    if maxConsecutiveErrors ≤ s.consecutiveErrors + 1 then
      ⟨s.consecutiveErrors + 1, true⟩
    else
      ⟨s.consecutiveErrors + 1, false⟩

/-- The polling loop run over a finite observation trace, from the
initial `consecutive_errors = 0`. -/
def runLoop (events : List PollEvent) : LoopState :=
  events.foldl loopStep ⟨0, false⟩

/-- How many events of a trace are loop-level exceptions. -/
def countLoopErrors (events : List PollEvent) : Nat :=
  (events.filter (fun e => match e with
    | PollEvent.loopError => true
    | _ => false)).length

/-! ## Delete endpoints (src/app/api/jobs.py, src/app/api/videos.py) -/

/-- HTTPException status families raised by the delete endpoints. -/
inductive ApiError where
  | notFound
  | badRequest
  | serverError
deriving DecidableEq, Repr

/-- Endpoint `delete_job` (src/app/api/jobs.py lines 137-164): 404 when the job
does not exist; 400 when its status is PENDING or PROCESSING; otherwise
delete the row and commit. -/
def delete_job (st : WorldState) (jid : String) :
    Except ApiError WorldState :=
  match st.jobs.find? (fun j => j.id == jid) with
  | none => Except.error ApiError.notFound
  | some j =>
    if j.status = JobStatus.pending ∨ j.status = JobStatus.processing then
      Except.error ApiError.badRequest
    else
      Except.ok { st with jobs := st.jobs.filter (fun x => ¬ x.id == jid) }

/-- Endpoint `delete_video` (src/app/api/videos.py lines 210-264): 404 when the
video does not exist; 500 when the Pinecone deletion raises (the
`pineconeOk` input); otherwise delete the video's vectors, ALL of its
jobs — with no status check — its S3 object (failures there are
swallowed by the source, so no input models them), and the video row,
whose ORM cascade removes its frame rows. -/
def delete_video (st : WorldState) (vid : String) (pineconeOk : Bool) :
    Except ApiError WorldState :=
  match st.videos.find? (fun v => v.id == vid) with
  | none => Except.error ApiError.notFound
  | some _ =>
    if ¬ pineconeOk then Except.error ApiError.serverError
    else
      Except.ok
        { jobs := st.jobs.filter (fun j => ¬ j.video_id == vid)
          videos := st.videos.filter (fun v => ¬ v.id == vid)
          framesDb := st.framesDb.filter (fun r => ¬ r.video_id == vid)
          index := delete_video_embeddings st.index vid }

/-- Concrete job, video and world used by the worker counterexamples. -/
def wrkWorld : WorldState :=
  ⟨[newJob "job-1" "vid-1"], [⟨"vid-1", none⟩], [], []⟩

/-- An environment whose download succeeds and whose decoder yields one
frame at timestamp 0 with duration 5. -/
def envOk : WorkerEnv :=
  ⟨true, Except.ok ⟨[(0, 0)], 5⟩, fun x => [(x : ℚ)], 7⟩

/-- An environment whose download succeeds but whose decoder raises. -/
def envDecodeFail : WorkerEnv :=
  ⟨true, Except.error "Could not open video", fun x => [(x : ℚ)], 7⟩

/-- A fully-populated work message for job-1 / vid-1. -/
def msgOk : MsgBody :=
  MsgBody.fields (some "job-1") (some "vid-1") (some "videos/v.mp4")
    (some "bucket")

/-- The status-write shapes a single `process_message` run can produce. -/
def writeShapes : List (List JobStatus) :=
  [[], [JobStatus.failed],
   [JobStatus.processing, JobStatus.completed],
   [JobStatus.processing, JobStatus.failed]]

/-- The status sequences the claim allows: prefixes of
PENDING, PROCESSING, {COMPLETED | FAILED}. -/
def statusSeqOk (l : List JobStatus) : Bool :=
  l.isPrefixOf
    [JobStatus.pending, JobStatus.processing, JobStatus.completed] ||
  l.isPrefixOf
    [JobStatus.pending, JobStatus.processing, JobStatus.failed]

/-- The status history of job-1 across its creation and two successful
deliveries of its work message — the second delivery models SQS
redelivery after the visibility timeout, aimed at a job that is already
COMPLETED. -/
def redeliveryHistory : List JobStatus :=
  let c := create_job [] "job-1" "vid-1"
  let w0 : WorldState := ⟨c.1, [⟨"vid-1", none⟩], [], []⟩
  let r1 := process_message envOk msgOk w0
  let r2 := process_message envOk msgOk r1.world
  (c.2 ++ r1.statusWrites ++ r2.statusWrites).map Prod.snd

/-- A world in which vid-1 was fully processed before: 40 frame rows in
the database and 40 vectors in the index, plus a fresh PENDING job that
will reprocess the video. -/
def reprocessWorld : WorldState :=
  ⟨[newJob "job-2" "vid-1"], [⟨"vid-1", some 5⟩],
   (List.range 40).map (fun i => ⟨"vid-1", i, (i : ℚ), [(i : ℚ)]⟩),
   (List.range 40).map (fun i => ⟨"vid-1", "frame", [(i : ℚ)]⟩)⟩

/-- An environment whose decoder yields a 25-frame sample. -/
def env25 : WorkerEnv :=
  ⟨true, Except.ok ⟨(List.range 25).map (fun i => (i, (i : ℚ))), 5⟩,
   fun x => [(x : ℚ)], 7⟩

/-- The work message for the reprocessing job. -/
def msgReprocess : MsgBody :=
  MsgBody.fields (some "job-2") (some "vid-1") (some "videos/v.mp4")
    (some "bucket")

/-- A COMPLETED job on vid-1, and a world containing it. -/
def doneJob : Job :=
  { newJob "job-2" "vid-1" with status := JobStatus.completed }

/-- World with one COMPLETED job. -/
def doneWorld : WorldState := ⟨[doneJob], [⟨"vid-1", none⟩], [], []⟩

/-! ## Verified properties -/

/-- C9: For every max_videos and max_results_per_video, the candidate pool
size requested from the vector index equals
clamp(max_videos × max_results_per_video × 5, 50, 500): five times the
desired yield, with a floor of 50 and a ceiling of 500. -/
theorem C9_top_k_clamp (maxVideos maxPerVideo : Nat) :
    search_top_k maxVideos maxPerVideo =
      clampSpec 50 500 (maxVideos * maxPerVideo * 5) ∧
    50 ≤ search_top_k maxVideos maxPerVideo ∧
    search_top_k maxVideos maxPerVideo ≤ 500 := by
  unfold search_top_k clampSpec
  omega

/-- A member of `ensureGroup gs vid fn` is an old group or the fresh
empty group. -/
theorem mem_ensureGroup (gs : List VideoGroup) (vid fn : String) :
    ∀ g ∈ ensureGroup gs vid fn, g ∈ gs ∨ g = ⟨vid, fn, []⟩ := by
  intro g hg
  unfold ensureGroup at hg
  by_cases hh : hasGroup gs vid
  · rw [if_pos hh] at hg; exact Or.inl hg
  · rw [if_neg hh] at hg
    rcases List.mem_append.mp hg with hg | hg
    · exact Or.inl hg
    · exact Or.inr (List.mem_singleton.mp hg)

/-- A member of `appendMatch gs vid m` is either an unchanged old group or
an old group with `m` appended to its match list. -/
theorem mem_appendMatch (gs : List VideoGroup) (vid : String) (m : SearchMatch) :
    ∀ g ∈ appendMatch gs vid m,
      (g ∈ gs ∧ g.video_id ≠ vid) ∨ ∃ g0 ∈ gs, g0.video_id = vid ∧
        g = { g0 with matchList := g0.matchList ++ [m] } := by
  intro g hg
  rcases List.mem_map.mp hg with ⟨g0, hg0, hge⟩
  by_cases hid : g0.video_id == vid
  · right
    refine ⟨g0, hg0, by simpa using hid, ?_⟩
    rw [← hge, if_pos hid]
  · left
    rw [← hge, if_neg hid]
    exact ⟨hg0, by simpa using hid⟩

/-- Each group's score list only ever grows at the tail by the score of
the candidate just processed, so it stays a sublist of the scores of the
processed prefix. -/
theorem rankStep_scores_sublist (mv mp : Nat) (s : RankState) (c : Candidate)
    (acc : List ℚ) (h : ∀ g ∈ s.groups, List.Sublist (groupScores g) acc) :
    ∀ g ∈ (rankStep mv mp s c).groups,
      List.Sublist (groupScores g) (acc ++ [c.score.getD 0]) := by
  have hweak : ∀ g ∈ s.groups,
      List.Sublist (groupScores g) (acc ++ [c.score.getD 0]) :=
    fun g hg => (h g hg).trans (List.sublist_append_left _ _)
  intro g hg
  unfold rankStep at hg
  by_cases hbrk : s.brk
  · rw [if_pos hbrk] at hg; exact hweak g hg
  · rw [if_neg hbrk] at hg
    cases hcv : candVid c with
    | none => rw [hcv] at hg; exact hweak g hg
    | some vid =>
      rw [hcv] at hg
      simp only [] at hg
      have hens0 : ∀ g ∈ ensureGroup s.groups vid (candFilename c),
          List.Sublist (groupScores g) acc := by
        intro g hg
        rcases mem_ensureGroup _ _ _ g hg with hg | hg
        · exact h g hg
        · subst hg; exact List.nil_sublist _
      have hens : ∀ g ∈ ensureGroup s.groups vid (candFilename c),
          List.Sublist (groupScores g) (acc ++ [c.score.getD 0]) :=
        fun g hg => (hens0 g hg).trans (List.sublist_append_left _ _)
      split at hg
      · exact hens g hg
      · split at hg
        · exact hens g hg
        · rcases mem_appendMatch _ _ _ g hg with ⟨hg', _⟩ | ⟨g0, hg0, _, hge⟩
          · exact hens g hg'
          · subst hge
            have hsub := hens0 g0 hg0
            have : groupScores
                { g0 with matchList := g0.matchList ++ [mkMatch c] } =
                groupScores g0 ++ [c.score.getD 0] := by
              simp [groupScores, mkMatch]
            rw [this]
            exact List.Sublist.append hsub (List.Sublist.refl _)

/-- Fold version of `rankStep_scores_sublist`: after processing `l`, every
group's score list is a sublist of the processed candidates' scores. -/
theorem foldl_scores_sublist (mv mp : Nat) :
    ∀ (l : List Candidate) (s : RankState) (acc : List ℚ),
      (∀ g ∈ s.groups, List.Sublist (groupScores g) acc) →
      ∀ g ∈ (l.foldl (rankStep mv mp) s).groups,
        List.Sublist (groupScores g)
          (acc ++ l.map (fun m => m.score.getD 0)) := by
  intro l
  induction l with
  | nil => intro s acc h g hg; simpa using h g hg
  | cons c t ih =>
    intro s acc h g hg
    rw [List.foldl_cons] at hg
    have step := rankStep_scores_sublist mv mp s c acc h
    have := ih (rankStep mv mp s c) (acc ++ [c.score.getD 0]) step g hg
    simpa [List.append_assoc] using this

/-- C7 (amended): within each returned video group, the matches appear in
candidate-pool order, so whenever the input pool is sorted by
non-increasing score — as the vector index returns it — every returned
group's scores are non-increasing.  (The unsorted case fails; see the
counterexample.) -/
theorem C7_sorted_pool_groups_sorted (threshold : ℚ) (mp mv : Nat)
    (pool : List Candidate)
    (hsorted : pool.Pairwise
      (fun a b => b.score.getD 0 ≤ a.score.getD 0)) :
    ∀ g ∈ (search_videos threshold mp mv pool).results,
      (groupScores g).Pairwise (fun a b => b ≤ a) := by
  intro g hg
  unfold search_videos at hg
  by_cases hp : pool.isEmpty
  · rw [if_pos hp] at hg; simp at hg
  · rw [if_neg hp] at hg
    simp only [] at hg
    have hmem : g ∈ ((pool.filter
        (fun m => decide (threshold ≤ m.score.getD 0))).foldl
        (rankStep mv mp) ⟨[], false⟩).groups :=
      List.take_subset _ _ hg
    have hsub := foldl_scores_sublist mv mp
      (pool.filter (fun m => decide (threshold ≤ m.score.getD 0)))
      ⟨[], false⟩ [] (by intro g hg; simp at hg) g hmem
    simp only [List.nil_append] at hsub
    have hfiltered : List.Sublist
        ((pool.filter (fun m => decide (threshold ≤ m.score.getD 0))).map
          (fun m => m.score.getD 0))
        (pool.map (fun m => m.score.getD 0)) :=
      List.Sublist.map _ (List.filter_sublist pool)
    have hpoolscores : (pool.map (fun m => m.score.getD 0)).Pairwise
        (fun a b => b ≤ a) := by
      rw [List.pairwise_map]
      exact hsorted
    exact List.Pairwise.sublist (hsub.trans hfiltered) hpoolscores

/-- C7 counterexample: the claim quantifies over all candidate pools,
including unsorted ones, but the ranker performs no sort and no
sortedness check.  On the pool [A:0.5, A:0.9] the returned group for A
has scores [0.5, 0.9], which is increasing. -/
theorem C7_counterexample :
    ¬ (∀ (threshold : ℚ) (mp mv : Nat) (pool : List Candidate),
        ∀ g ∈ (search_videos threshold mp mv pool).results,
          (groupScores g).Pairwise (fun a b => b ≤ a)) := by
  intro hclaim
  have hmem : (search_videos 0 5 10 [candLow, candHigh]).results.headI ∈
      (search_videos 0 5 10 [candLow, candHigh]).results := by decide
  have h := hclaim 0 5 10 [candLow, candHigh] _ hmem
  exact absurd h (by decide)

/-- C7 witness: on the sorted pool [A:0.9, A:0.5] the returned group for A
has non-increasing scores. -/
theorem C7_sorted_pool_groups_sorted_witness :
    (groupScores
      (search_videos 0 5 10 [candHigh, candLow]).results.headI).Pairwise
      (fun a b => b ≤ a) := by
  have h := C7_sorted_pool_groups_sorted 0 5 10 [candHigh, candLow] (by decide)
  exact h _ (by decide)

/-- Appending one candidate extends the per-video tally by one for its
owner and leaves every other tally unchanged. -/
theorem countVid_append_one (l : List Candidate) (c : Candidate) (v : String) :
    countVid (l ++ [c]) v =
      countVid l v + (if candVid c = some v then 1 else 0) := by
  unfold countVid
  rw [List.filter_append, List.length_append]
  by_cases h : candVid c = some v <;> simp [h]

/-- Per-video tallies never shrink as the processed prefix grows. -/
theorem countVid_le_append (l : List Candidate) (c : Candidate) (v : String) :
    countVid l v ≤ countVid (l ++ [c]) v := by
  rw [countVid_append_one]; omega

/-- An absent video id means no group carries it. -/
theorem hasGroup_eq_false (gs : List VideoGroup) (v : String)
    (h : hasGroup gs v = false) : ∀ g ∈ gs, g.video_id ≠ v := by
  intro g hg
  unfold hasGroup at h
  rw [List.any_eq_false] at h
  simpa using h g hg

/-- After `ensureGroup` a group for `vid` is present. -/
theorem hasGroup_ensureGroup (gs : List VideoGroup) (vid fn : String) :
    hasGroup (ensureGroup gs vid fn) vid = true := by
  unfold ensureGroup
  by_cases h : hasGroup gs vid
  · rwa [if_pos h]
  · rw [if_neg h]
    unfold hasGroup
    simp [List.any_append]

/-- The call `ensureGroup` introduces no video id other than `vid`. -/
theorem hasGroup_ensureGroup_false (gs : List VideoGroup) (vid fn v : String)
    (h : hasGroup (ensureGroup gs vid fn) v = false) :
    hasGroup gs v = false := by
  unfold ensureGroup at h
  by_cases hh : hasGroup gs vid
  · rwa [if_pos hh] at h
  · rw [if_neg hh] at h
    unfold hasGroup at h ⊢
    rw [List.any_append] at h
    exact (Bool.or_eq_false_iff.mp h).1

/-- The call `appendMatch` changes no group video id. -/
theorem hasGroup_appendMatch (gs : List VideoGroup) (vid : String)
    (m : SearchMatch) (v : String) :
    hasGroup (appendMatch gs vid m) v = hasGroup gs v := by
  unfold hasGroup appendMatch
  rw [List.any_map]
  induction gs with
  | nil => rfl
  | cons g t ih =>
    simp only [List.any_cons]
    rw [ih]
    by_cases h : g.video_id == vid <;> simp [h, Function.comp]

/-- When a group for `v` exists, `groupMatches` returns the match list of
a member group owned by `v`. -/
theorem groupMatches_of_hasGroup (gs : List VideoGroup) (v : String)
    (h : hasGroup gs v = true) :
    ∃ g ∈ gs, g.video_id = v ∧ groupMatches gs v = g.matchList := by
  unfold hasGroup at h
  have hsome : (gs.find? (fun g => g.video_id == v)).isSome :=
    List.find?_isSome.mpr (by simpa using List.any_eq_true.mp h)
  rcases Option.isSome_iff_exists.mp hsome with ⟨g, hfind⟩
  refine ⟨g, List.mem_of_find?_eq_some hfind, ?_, ?_⟩
  · simpa using List.find?_some hfind
  · unfold groupMatches
    rw [hfind]
    rfl

/-- In a duplicate-free group list, groups sharing a video id coincide. -/
theorem group_unique (gs : List VideoGroup)
    (hpw : gs.Pairwise (fun a b => a.video_id ≠ b.video_id)) :
    ∀ g ∈ gs, ∀ g' ∈ gs, g.video_id = g'.video_id → g = g' := by
  intro g hg g' hg' hid
  by_contra hne
  have hsym : Symmetric (fun a b : VideoGroup => a.video_id ≠ b.video_id) :=
    fun a b h h2 => h h2.symm
  exact List.Pairwise.forall hsym hpw hg hg' hne hid

/-- The call `ensureGroup` preserves distinctness of video ids. -/
theorem ensureGroup_pairwise (gs : List VideoGroup) (vid fn : String)
    (h : gs.Pairwise (fun a b => a.video_id ≠ b.video_id)) :
    (ensureGroup gs vid fn).Pairwise (fun a b => a.video_id ≠ b.video_id) := by
  unfold ensureGroup
  by_cases hh : hasGroup gs vid
  · rwa [if_pos hh]
  · rw [if_neg hh]
    rw [List.pairwise_append]
    exact ⟨h, List.pairwise_singleton _ _,
      fun a ha b hb => by
        rw [List.mem_singleton] at hb
        subst hb
        exact hasGroup_eq_false gs vid (Bool.eq_false_iff.mpr hh) a ha⟩

/-- The call `appendMatch` preserves distinctness of video ids. -/
theorem appendMatch_pairwise (gs : List VideoGroup) (vid : String)
    (m : SearchMatch)
    (h : gs.Pairwise (fun a b => a.video_id ≠ b.video_id)) :
    (appendMatch gs vid m).Pairwise (fun a b => a.video_id ≠ b.video_id) := by
  unfold appendMatch
  refine List.Pairwise.map _ (fun a b hab => ?_) h
  by_cases ha : a.video_id == vid <;> by_cases hb : b.video_id == vid <;>
    simp [ha, hb, hab]

/-- The step `rankStep` preserves the loop invariant. -/
theorem rankStep_inv (mv mp : Nat) (done : List Candidate) (s : RankState)
    (c : Candidate) (h : RankInv mp done s) :
    RankInv mp (done ++ [c]) (rankStep mv mp s c) := by
  obtain ⟨hle, hrun, hterm⟩ := h
  by_cases hbrk : s.brk
  · have hstep : rankStep mv mp s c = s := by
      unfold rankStep
      rw [if_pos hbrk]
    rw [hstep]
    refine ⟨?_, ?_, hterm⟩
    · exact fun g hg => le_trans (hle g hg) (countVid_le_append _ _ _)
    · intro hf
      rw [hf] at hbrk
      cases hbrk
  · have hbrk' : s.brk = false := Bool.eq_false_iff.mpr hbrk
    cases hcv : candVid c with
    | none =>
      have hstep : rankStep mv mp s c = s := by
        unfold rankStep
        rw [if_neg hbrk, hcv]
      rw [hstep]
      have hcnt : ∀ v, countVid (done ++ [c]) v = countVid done v := by
        intro v
        rw [countVid_append_one]
        simp [hcv]
      obtain ⟨heq, habs⟩ := hrun hbrk'
      refine ⟨?_, ?_, ?_⟩
      · intro g hg
        rw [hcnt]
        exact hle g hg
      · intro _
        exact ⟨fun g hg => by rw [hcnt]; exact heq g hg,
          fun v hv => by rw [hcnt]; exact habs v hv⟩
      · intro ht
        rw [ht] at hbrk'
        cases hbrk'
    | some vid =>
      obtain ⟨heq, habs⟩ := hrun hbrk'
      have hhas : hasGroup (ensureGroup s.groups vid (candFilename c)) vid =
          true := hasGroup_ensureGroup _ _ _
      -- tallies after consuming c
      have hcnt_vid : countVid (done ++ [c]) vid = countVid done vid + 1 := by
        rw [countVid_append_one]
        simp [hcv]
      have hcnt_ne : ∀ v, v ≠ vid → countVid (done ++ [c]) v =
          countVid done v := by
        intro v hv
        have hne : ¬ (candVid c = some v) := by
          rw [hcv]
          intro hsome
          exact hv (Option.some.inj hsome).symm
        rw [countVid_append_one, if_neg hne, Nat.add_zero]
      -- the after-insertion dict still satisfies the running equation
      have hF2 : ∀ g ∈ ensureGroup s.groups vid (candFilename c),
          g.matchList.length = min mp (countVid done g.video_id) := by
        by_cases hh : hasGroup s.groups vid
        · intro g hg
          unfold ensureGroup at hg
          rw [if_pos hh] at hg
          exact heq g hg
        · have h0 : countVid done vid = 0 :=
            habs vid (Bool.eq_false_iff.mpr hh)
          intro g hg
          unfold ensureGroup at hg
          rw [if_neg hh] at hg
          rcases List.mem_append.mp hg with hg | hg
          · exact heq g hg
          · rw [List.mem_singleton] at hg
            subst hg
            simp [h0]
      have hF3 : ∀ v, hasGroup (ensureGroup s.groups vid (candFilename c)) v =
          false → countVid done v = 0 :=
        fun v hv => habs v (hasGroup_ensureGroup_false _ _ _ _ hv)
      have hgm : (groupMatches (ensureGroup s.groups vid (candFilename c))
          vid).length = min mp (countVid done vid) := by
        obtain ⟨g, hg, hgid, hgeq⟩ := groupMatches_of_hasGroup _ _ hhas
        rw [hgeq, hF2 g hg, hgid]
      by_cases hcap : mp ≤ (groupMatches
          (ensureGroup s.groups vid (candFilename c)) vid).length
      · -- per-video cap reached: candidate dropped, dict unchanged
        have hstep : rankStep mv mp s c =
            { s with groups := ensureGroup s.groups vid (candFilename c) } := by
          unfold rankStep
          rw [if_neg hbrk, hcv]
          simp only [hhas, not_true, and_false, if_false]
          rw [if_pos hcap]
        rw [hstep]
        rw [hgm] at hcap
        refine ⟨?_, ?_, ?_⟩
        · intro g hg
          have := hF2 g hg
          by_cases hgid : g.video_id = vid
          · rw [hgid] at this ⊢
            rw [hcnt_vid]
            omega
          · rw [hcnt_ne _ hgid]
            omega
        · intro _
          refine ⟨?_, ?_⟩
          · intro g hg
            have := hF2 g hg
            by_cases hgid : g.video_id = vid
            · rw [hgid] at this ⊢
              rw [hcnt_vid]
              omega
            · rw [hcnt_ne _ hgid]
              exact this
          · intro v hv
            have hvne : v ≠ vid := by
              intro hveq
              rw [hveq, hhas] at hv
              cases hv
            rw [hcnt_ne _ hvne]
            exact hF3 v hv
        · intro ht
          rw [ht] at hbrk'
          cases hbrk'
      · -- cap not reached: candidate appended
        have hstep : rankStep mv mp s c =
            ⟨appendMatch (ensureGroup s.groups vid (candFilename c)) vid
              (mkMatch c),
             decide (mv ≤ (appendMatch
               (ensureGroup s.groups vid (candFilename c)) vid
               (mkMatch c)).length) &&
             (appendMatch (ensureGroup s.groups vid (candFilename c)) vid
               (mkMatch c)).all (fun g => mp ≤ g.matchList.length)⟩ := by
          unfold rankStep
          rw [if_neg hbrk, hcv]
          simp only [hhas, not_true, and_false, if_false]
          rw [if_neg hcap]
        rw [hstep]
        rw [hgm] at hcap
        have hnewEq : ∀ g ∈ appendMatch
            (ensureGroup s.groups vid (candFilename c)) vid (mkMatch c),
            g.matchList.length = min mp (countVid (done ++ [c]) g.video_id) := by
          intro g hg
          rcases mem_appendMatch _ _ _ g hg with ⟨hg0, hgid⟩ | ⟨g0, hg0, hgid, hge⟩
          · rw [hcnt_ne _ hgid]
            exact hF2 g hg0
          · have hlen0 := hF2 g0 hg0
            rw [hgid] at hlen0
            subst hge
            show (g0.matchList ++ [mkMatch c]).length = _
            rw [List.length_append]
            have : ({ g0 with matchList := g0.matchList ++ [mkMatch c] } :
                VideoGroup).video_id = vid := hgid
            rw [this, hcnt_vid]
            simp only [List.length_cons, List.length_nil]
            omega
        refine ⟨?_, ?_, ?_⟩
        · intro g hg
          have := hnewEq g hg
          omega
        · intro hf
          refine ⟨hnewEq, ?_⟩
          intro v hv
          have hv0 : hasGroup (ensureGroup s.groups vid (candFilename c)) v =
              false := by
            rw [← hasGroup_appendMatch _ vid (mkMatch c) v]
            exact hv
          have hvne : v ≠ vid := by
            intro hveq
            rw [hveq, hhas] at hv0
            cases hv0
          rw [hcnt_ne _ hvne]
          exact hF3 v hv0
        · intro ht
          rw [Bool.and_eq_true] at ht
          have hall := ht.2
          rw [List.all_eq_true] at hall
          intro g hg
          have h1 := hnewEq g hg
          have h2 : mp ≤ g.matchList.length := by
            have := hall g hg
            simpa using this
          omega

/-- The loop invariant carries over a whole run of the grouping loop. -/
theorem foldl_rankInv (mv mp : Nat) :
    ∀ (l done : List Candidate) (s : RankState),
      RankInv mp done s →
      RankInv mp (done ++ l) (l.foldl (rankStep mv mp) s) := by
  intro l
  induction l with
  | nil =>
    intro done s h
    simpa using h
  | cons c t ih =>
    intro done s h
    rw [List.foldl_cons]
    have := ih (done ++ [c]) (rankStep mv mp s c)
      (rankStep_inv mv mp done s c h)
    simpa [List.append_assoc] using this

/-- Whether the loop ran to completion or broke out early, every group
ends with exactly `min mp` (its owner's tally) matches. -/
theorem rankInv_final (mp : Nat) (done : List Candidate) (s : RankState)
    (h : RankInv mp done s) :
    ∀ g ∈ s.groups,
      g.matchList.length = min mp (countVid done g.video_id) := by
  obtain ⟨hle, hrun, hterm⟩ := h
  intro g hg
  cases hb : s.brk
  · exact (hrun hb).1 g hg
  · have h1 := hterm hb g hg
    have h2 := hle g hg
    omega

/-- C8: For all inputs to the Search Ranker, the response holds at most
max_videos groups, every returned group holds at most
max_results_per_video matches, and a returned group's match count equals
min(max_results_per_video, number of above-threshold candidates owned by
that video) — candidates for an admitted video keep filling its group
until the per-video cap is reached. -/
theorem C8_ranker_caps (threshold : ℚ) (mp mv : Nat)
    (pool : List Candidate) :
    (search_videos threshold mp mv pool).results.length ≤ mv ∧
    ∀ g ∈ (search_videos threshold mp mv pool).results,
      g.matchList.length ≤ mp ∧
      g.matchList.length =
        min mp (countVid (pool.filter (fun m => threshold ≤ m.score.getD 0))
          g.video_id) := by
  unfold search_videos
  by_cases hp : pool.isEmpty
  · rw [if_pos hp]
    exact ⟨Nat.zero_le _, by intro g hg; simp at hg⟩
  · rw [if_neg hp]
    simp only []
    have hinv0 : RankInv mp [] ⟨[], false⟩ := by
      refine ⟨?_, ?_, ?_⟩
      · intro g hg; simp at hg
      · intro _
        exact ⟨fun g hg => by simp at hg, fun v _ => rfl⟩
      · intro ht; cases ht
    have hinv := foldl_rankInv mv mp
      (pool.filter (fun m => decide (threshold ≤ m.score.getD 0))) [] _ hinv0
    rw [List.nil_append] at hinv
    have hfin := rankInv_final mp _ _ hinv
    constructor
    · exact List.length_take_le _ _
    · intro g hg
      have hmem := List.take_subset _ _ hg
      have := hfin g hmem
      exact ⟨by omega, this⟩

/-- C8 witness: on the concrete pool [A:0.9, A:0.5] with a per-video cap
of 1 and a video cap of 2 the single returned group for A holds exactly
min 1 2 = 1 match. -/
theorem C8_ranker_caps_witness :
    (search_videos 0 1 2 [candHigh, candLow]).results.length ≤ 2 ∧
    ((search_videos 0 1 2 [candHigh, candLow]).results.headI.matchList.length ≤ 1 ∧
     (search_videos 0 1 2 [candHigh, candLow]).results.headI.matchList.length =
       min 1 (countVid ([candHigh, candLow].filter
         (fun m => (0:ℚ) ≤ m.score.getD 0))
         (search_videos 0 1 2 [candHigh, candLow]).results.headI.video_id)) := by
  have h := C8_ranker_caps 0 1 2 [candHigh, candLow]
  exact ⟨h.1, h.2 _ (by decide)⟩

/-- The call `update_job_status` reports a write exactly when the job row exists. -/
theorem update_job_status_bool (jobs : List Job) (jid : String)
    (st : JobStatus) (f : JobFields) :
    (update_job_status jobs jid st f).2 =
      (jobs.find? (fun j => j.id == jid)).isSome := by
  unfold update_job_status
  cases h : jobs.find? (fun j => j.id == jid) <;> rfl

/-- The row written by `update_job_status` keeps its primary key, so a
lookup by any id finds a row afterwards iff it found one before. -/
theorem find?_isSome_update (jobs : List Job) (jid : String)
    (st : JobStatus) (f : JobFields) (jid' : String) :
    ((update_job_status jobs jid st f).1.find?
      (fun j => j.id == jid')).isSome =
    (jobs.find? (fun j => j.id == jid')).isSome := by
  unfold update_job_status
  cases h : jobs.find? (fun j => j.id == jid) with
  | none => rfl
  | some j0 =>
    simp only []
    rw [List.find?_map]
    rw [Option.isSome_map']
    congr 1
    congr 1
    funext j
    by_cases hj : j.id == jid
    · rw [Function.comp_apply, if_pos hj]
      rfl
    · rw [Function.comp_apply, if_neg hj]

/-- Looking the written job up after `update_job_status` returns the row
with the new status and fields applied. -/
theorem find?_update_self (jobs : List Job) (jid : String) (st : JobStatus)
    (f : JobFields) (j0 : Job)
    (h : jobs.find? (fun j => j.id == jid) = some j0) :
    (update_job_status jobs jid st f).1.find? (fun j => j.id == jid) =
      some (applyFields { j0 with status := st } f) := by
  unfold update_job_status
  rw [h]
  simp only []
  rw [List.find?_map]
  have hpe : ((fun (j : Job) => j.id == jid) ∘ (fun j =>
      if j.id == jid then applyFields { j with status := st } f else j)) =
      (fun (j : Job) => j.id == jid) := by
    funext j
    by_cases hj : j.id == jid
    · rw [Function.comp_apply, if_pos hj]
      show ((applyFields { j with status := st } f).id == jid) = _
      have hid : (applyFields { j with status := st } f).id = j.id := rfl
      rw [hid, hj]
    · rw [Function.comp_apply, if_neg hj]
  rw [hpe, h]
  have hj0 := List.find?_some h
  rw [Option.map_some']
  rw [if_pos hj0]

/-- The handler `handleFailure` always reports failure, never acks, and never removes
the temporary file. -/
theorem handleFailure_flags (env : WorkerEnv) (body : MsgBody)
    (w : WorldState) (err : String) (tc : Bool)
    (writes : List (String × JobStatus)) :
    (handleFailure env body w err tc writes).success = false ∧
    (handleFailure env body w err tc writes).acked = false ∧
    (handleFailure env body w err tc writes).tmpRemoved = false ∧
    (handleFailure env body w err tc writes).tmpCreated = tc := by
  unfold handleFailure
  cases body with
  | malformed => exact ⟨rfl, rfl, rfl, rfl⟩
  | fields jobId videoId s3Key s3Bucket =>
    cases jobId with
    | none => exact ⟨rfl, rfl, rfl, rfl⟩
    | some jid => exact ⟨rfl, rfl, rfl, rfl⟩

/-- The writes of `handleFailure`: the accumulated writes, possibly
extended by one FAILED write for the salvaged job id. -/
theorem handleFailure_writes (env : WorkerEnv) (body : MsgBody)
    (w : WorldState) (err : String) (tc : Bool)
    (writes : List (String × JobStatus)) :
    (handleFailure env body w err tc writes).statusWrites = writes ∨
    ∃ jid, (handleFailure env body w err tc writes).statusWrites =
      writes ++ [(jid, JobStatus.failed)] := by
  unfold handleFailure
  cases body with
  | malformed => exact Or.inl rfl
  | fields jobId videoId s3Key s3Bucket =>
    cases jobId with
    | none => exact Or.inl rfl
    | some jid =>
      simp only []
      by_cases hr : (update_job_status w.jobs jid JobStatus.failed
          { completed_at := some env.now, error_message := some err }).2
      · right
        exact ⟨jid, by rw [if_pos hr]⟩
      · left
        rw [Bool.eq_false_iff.mpr hr]
        simp

/-- C4 (amended): the scoped temporary file is removed exactly on the
success path; on any exit after its creation where an exception fired —
download, decode, embedding or storage failure — the file is NOT removed
(there is no finally/context-managed unlink in the source). -/
theorem C4_tmp_removed_iff_success (env : WorkerEnv) (body : MsgBody)
    (w : WorldState) :
    (process_message env body w).tmpRemoved =
      (process_message env body w).success := by
  cases body with
  | malformed => rfl
  | fields jobId videoId s3Key s3Bucket =>
    cases jobId <;> cases videoId <;> cases s3Key <;> cases s3Bucket <;>
      try rfl
    simp only [process_message]
    split
    · rfl
    · split
      · rfl
      · split
        · rfl
        · rfl

/-- C4 counterexample: when the decoder raises after a successful
download, the run ends with the temporary file created but not removed,
refuting removal on every exit path. -/
theorem C4_counterexample :
    (process_message envDecodeFail msgOk wrkWorld).tmpCreated = true ∧
    (process_message envDecodeFail msgOk wrkWorld).tmpRemoved = false := by
  decide

/-- C3 (amended): only a successfully processed message is acknowledged
(deleted from the queue); a failed one — including one whose body is
unparseable — is left to be redelivered by the transport.  A raw
unparseable body writes nothing and changes nothing; a JSON body with a
salvageable `job_id` but another required key missing best-effort marks
that job FAILED before returning. -/
theorem C3_malformed_handling (env : WorkerEnv) (body : MsgBody)
    (w : WorldState) :
    ((process_message env body w).acked =
      (process_message env body w).success) ∧
    (body = MsgBody.malformed →
      (process_message env body w).statusWrites = [] ∧
      (process_message env body w).world = w) ∧
    (∀ jid vid j0,
      body = MsgBody.fields (some jid) (some vid) none none →
      w.jobs.find? (fun j => j.id == jid) = some j0 →
      (process_message env body w).world.jobs.find?
          (fun j => j.id == jid) =
        some (applyFields { j0 with status := JobStatus.failed }
          { completed_at := some env.now,
            error_message := some "KeyError" })) := by
  refine ⟨?_, ?_, ?_⟩
  · cases body with
    | malformed => rfl
    | fields jobId videoId s3Key s3Bucket =>
      cases jobId <;> cases videoId <;> cases s3Key <;> cases s3Bucket <;>
        try rfl
      simp only [process_message]
      split
      · rfl
      · split
        · rfl
        · split
          · rfl
          · rfl
  · intro hb
    subst hb
    exact ⟨rfl, rfl⟩
  · intro jid vid j0 hb hfind
    subst hb
    exact find?_update_self w.jobs jid JobStatus.failed _ j0 hfind

/-- C3 counterexample: a malformed message is NOT deleted from the queue
(only the success path calls `delete_message`), so repeatedly-unparseable
content IS redelivered by the transport, contrary to the claim. -/
theorem C3_counterexample :
    (process_message envOk MsgBody.malformed wrkWorld).acked = false ∧
    (process_message envOk MsgBody.malformed wrkWorld).statusWrites = [] := by
  decide

/-- C3 witness: applying the amended theorem to a partially-parseable
message (job_id present, s3 keys missing) on a world with a pending job:
the message is unacknowledged and the job is marked FAILED. -/
theorem C3_malformed_handling_witness :
    (process_message envOk
      (MsgBody.fields (some "job-1") (some "vid-1") none none)
      wrkWorld).world.jobs.find? (fun j => j.id == "job-1") =
      some (applyFields
        { newJob "job-1" "vid-1" with status := JobStatus.failed }
        { completed_at := some (7:Nat),
          error_message := some "KeyError" }) := by
  exact (C3_malformed_handling envOk
    (MsgBody.fields (some "job-1") (some "vid-1") none none)
    wrkWorld).2.2 "job-1" "vid-1" (newJob "job-1" "vid-1") rfl (by decide)

/-- A failure with no prior writes ends with either no write or a single
FAILED write. -/
theorem writes_snd_mem_nil (env : WorkerEnv) (body : MsgBody)
    (w : WorldState) (err : String) (tc : Bool) :
    ((handleFailure env body w err tc []).statusWrites.map Prod.snd) ∈
      writeShapes := by
  rcases handleFailure_writes env body w err tc [] with h | ⟨jid, h⟩ <;>
    rw [h] <;> simp [writeShapes]

/-- A failure after the PROCESSING write ends with either no write (job
row absent both times) or PROCESSING then FAILED. -/
theorem writes_snd_mem_fail (env : WorkerEnv) (jid : String)
    (b2 b3 b4 : Option String) (w : WorldState) (err : String) (tc : Bool) :
    ((handleFailure env (MsgBody.fields (some jid) b2 b3 b4)
      { w with jobs := (update_job_status w.jobs jid JobStatus.processing
          { started_at := some env.now }).1 }
      err tc
      (if (update_job_status w.jobs jid JobStatus.processing
          { started_at := some env.now }).2 = true then
        [(jid, JobStatus.processing)]
      else [])).statusWrites.map Prod.snd) ∈ writeShapes := by
  unfold handleFailure
  simp only []
  have hb1 := update_job_status_bool w.jobs jid JobStatus.processing
    { started_at := some env.now }
  have hb2 : (update_job_status
      (update_job_status w.jobs jid JobStatus.processing
        { started_at := some env.now }).1 jid JobStatus.failed
      { completed_at := some env.now, error_message := some err }).2 =
      (w.jobs.find? (fun j => j.id == jid)).isSome := by
    rw [update_job_status_bool, find?_isSome_update]
  by_cases hj : (w.jobs.find? (fun j => j.id == jid)).isSome
  · rw [hj] at hb1 hb2
    simp [hb1, hb2, writeShapes]
  · rw [Bool.eq_false_iff.mpr hj] at hb1 hb2
    simp [hb1, hb2, writeShapes]

/-- C2 (amended): `update_job_status` applies the requested status
unconditionally whenever the job row exists, so the worker enforces no
forward-only discipline; what does hold is that a single run of
`process_message` writes one of: nothing, FAILED alone (partially
parseable body), PROCESSING then COMPLETED, or PROCESSING then FAILED —
in particular the worker never writes PENDING.  Redelivery of a message
for a terminal job therefore rewrites PROCESSING (see the
counterexample). -/
theorem C2_single_delivery_writes (env : WorkerEnv) (body : MsgBody)
    (w : WorldState) :
    (process_message env body w).statusWrites.map Prod.snd ∈ writeShapes := by
  cases body with
  | malformed =>
    exact writes_snd_mem_nil env MsgBody.malformed w
      "Expecting value: line 1 column 1" false
  | fields jobId videoId s3Key s3Bucket =>
    cases jobId <;> cases videoId <;> cases s3Key <;> cases s3Bucket <;>
      try (exact writes_snd_mem_nil env _ w "KeyError" false)
    simp only [process_message]
    split
    · exact writes_snd_mem_fail env _ _ _ _ w _ true
    · split
      · exact writes_snd_mem_fail env _ _ _ _ w _ true
      · split
        · exact writes_snd_mem_fail env _ _ _ _ w _ true
        · rename_i jid vid k b hdl x1 ex hex x2 embs hgen
          simp only []
          have hb1 := update_job_status_bool w.jobs jid JobStatus.processing
            { started_at := some env.now }
          have hb3 : ∀ f3 : JobFields, (update_job_status
              (update_job_status w.jobs jid JobStatus.processing
                { started_at := some env.now }).1 jid JobStatus.completed
              f3).2 = (w.jobs.find? (fun j => j.id == jid)).isSome :=
            fun f3 => by rw [update_job_status_bool, find?_isSome_update]
          by_cases hj : (w.jobs.find? (fun j => j.id == jid)).isSome
          · rw [hj] at hb1
            simp [hb1, hb3, hj, writeShapes]
          · rw [Bool.eq_false_iff.mpr hj] at hb1
            simp [hb1, hb3, Bool.eq_false_iff.mpr hj, writeShapes]

/-- C2 counterexample: redelivering the message of a COMPLETED job makes
the worker write PROCESSING again — `update_job_status` checks nothing —
so the observed sequence PENDING, PROCESSING, COMPLETED, PROCESSING,
COMPLETED leaves the terminal state and is no prefix of the allowed
chains. -/
theorem C2_counterexample :
    redeliveryHistory =
      [JobStatus.pending, JobStatus.processing, JobStatus.completed,
       JobStatus.processing, JobStatus.completed] ∧
    statusSeqOk redeliveryHistory = false := by decide

/-- C1: reprocessing a 40-frame video with a 25-frame sample succeeds and
leaves exactly 25 frame rows in the store, but the vector index still
holds its 40 stale vectors, unchanged: `process_message` performs no
index upsert (and no index delete) at all — `upsert_embeddings` has no
caller in the repository — where the claim requires exactly 25 vectors
for the video. -/
theorem C1_reprocess_divergence :
    (process_message env25 msgReprocess reprocessWorld).success = true ∧
    ((process_message env25 msgReprocess reprocessWorld).world.framesDb.filter
      (fun r => r.video_id == "vid-1")).length = 25 ∧
    ((process_message env25 msgReprocess reprocessWorld).world.index.filter
      (fun r => r.video_id == "vid-1")).length = 40 ∧
    (process_message env25 msgReprocess reprocessWorld).world.index =
      reprocessWorld.index := by decide

/-- The per-message loop body accumulates one increment per failed
message on top of the accumulator. -/
theorem foldl_count_failures (rs : List Bool) :
    ∀ c : Nat, rs.foldl (fun c ok => if ok then c else c + 1) c =
      c + (rs.filter (fun b => !b)).length := by
  induction rs with
  | nil => intro c; simp
  | cons b t ih =>
    intro c
    cases b
    · simp [List.foldl_cons, ih]
      omega
    · simp [List.foldl_cons, ih]

/-- C5 (amended): per-message failures DO feed the consecutive-error
counter — a non-empty poll resets it to 0 and then each failed message
increments it (src/worker/worker.py lines 255, 263-264) — while the
threshold comparison and `sys.exit(1)` run only inside the loop-level
exception handler.  So the counter does not count only loop-level
exceptions: a loop-level exception can exit the process on the strength
of per-message failures counted just before it. -/
theorem C5_counter_behaviour (s : LoopState) (rs : List Bool) :
    (s.exited = false → rs ≠ [] →
      (loopStep s (PollEvent.batch rs)).consecutiveErrors =
        (rs.filter (fun b => !b)).length ∧
      (loopStep s (PollEvent.batch rs)).exited = s.exited) ∧
    (s.exited = false →
      ((loopStep s PollEvent.loopError).exited = true ↔
        maxConsecutiveErrors ≤ s.consecutiveErrors + 1)) := by
  constructor
  · intro hex hne
    have hie : rs.isEmpty = false := by
      cases rs with
      | nil => cases hne rfl
      | cons b t => rfl
    unfold loopStep
    rw [hex]
    simp [hie, foldl_count_failures]
  · intro hex
    unfold loopStep
    rw [hex]
    by_cases h10 : maxConsecutiveErrors ≤ s.consecutiveErrors + 1
    · simp [h10]
    · simp [h10]

/-- C5 witness: from a clean state, one batch with a single failed
message sets the counter to 1, and a loop-level error from a clean state
does not exit (1 < 10). -/
theorem C5_counter_behaviour_witness :
    ((loopStep ⟨0, false⟩ (PollEvent.batch [false])).consecutiveErrors =
      ([false].filter (fun b => !b)).length ∧
     (loopStep ⟨0, false⟩ (PollEvent.batch [false])).exited =
      (⟨0, false⟩ : LoopState).exited) ∧
    ((loopStep ⟨0, false⟩ PollEvent.loopError).exited = true ↔
      maxConsecutiveErrors ≤ (0 : Nat) + 1) := by
  have h := C5_counter_behaviour ⟨0, false⟩ [false]
  exact ⟨h.1 rfl (by decide), h.2 rfl⟩

/-- C5 counterexample: a batch of 9 failed messages followed by a single
loop-level exception exits the process, although only ONE loop-level
exception occurred — the 9 per-message failures counted toward the
threshold of 10, which the claim denies. -/
theorem C5_counterexample :
    (runLoop [PollEvent.batch (List.replicate 9 false),
      PollEvent.loopError]).exited = true ∧
    countLoopErrors [PollEvent.batch (List.replicate 9 false),
      PollEvent.loopError] = 1 ∧
    countLoopErrors [PollEvent.batch (List.replicate 9 false),
      PollEvent.loopError] < maxConsecutiveErrors := by decide

/-- After filtering a job id out, looking it up finds nothing. -/
theorem find?_filter_not_id (l : List Job) (jid : String) :
    (l.filter (fun x => ¬ x.id == jid)).find? (fun x => x.id == jid) =
      none := by
  rw [List.find?_eq_none]
  intro a ha
  have := List.of_mem_filter ha
  simpa using this

/-- C6 (amended): the job-delete endpoint enforces the guard — a PENDING
or PROCESSING job is rejected with 400, a COMPLETED or FAILED job is
removed — but the guard is not global: `delete_video` deletes every job
of the video with no status check, so a PENDING or PROCESSING job CAN be
removed through video deletion (see the counterexample). -/
theorem C6_job_delete_guard (st : WorldState) (jid : String) (j : Job)
    (h : st.jobs.find? (fun x => x.id == jid) = some j) :
    ((j.status = JobStatus.pending ∨ j.status = JobStatus.processing) →
      delete_job st jid = Except.error ApiError.badRequest) ∧
    ((j.status = JobStatus.completed ∨ j.status = JobStatus.failed) →
      delete_job st jid =
        Except.ok
          { st with jobs := st.jobs.filter (fun x => ¬ x.id == jid) } ∧
      ({ st with jobs := st.jobs.filter (fun x => ¬ x.id == jid) } :
          WorldState).jobs.find? (fun x => x.id == jid) = none) := by
  constructor
  · intro hs
    unfold delete_job
    simp only [h]
    rw [if_pos hs]
  · intro hs
    have hns : ¬ (j.status = JobStatus.pending ∨
        j.status = JobStatus.processing) := by
      rcases hs with hs | hs <;> rw [hs] <;> rintro (hc | hc) <;> cases hc
    refine ⟨?_, ?_⟩
    · unfold delete_job
      simp only [h]
      rw [if_neg hns]
    · exact find?_filter_not_id st.jobs jid

/-- C6 witness: deleting the PENDING job of `wrkWorld` is rejected with
400; deleting the COMPLETED job of `doneWorld` succeeds and removes it. -/
theorem C6_job_delete_guard_witness :
    delete_job wrkWorld "job-1" = Except.error ApiError.badRequest ∧
    delete_job doneWorld "job-2" =
      Except.ok { doneWorld with
        jobs := doneWorld.jobs.filter (fun x => ¬ x.id == "job-2") } := by
  constructor
  · exact (C6_job_delete_guard wrkWorld "job-1" (newJob "job-1" "vid-1")
      (by decide)).1 (Or.inl (by decide))
  · exact ((C6_job_delete_guard doneWorld "job-2" doneJob
      (by decide)).2 (Or.inl (by decide))).1

/-- C6 counterexample: `wrkWorld` holds job-1 in PENDING; deleting its
video succeeds and removes the job — an operation other than the guarded
job-delete removes a PENDING job, refuting the claim. -/
theorem C6_counterexample :
    (newJob "job-1" "vid-1").status = JobStatus.pending ∧
    delete_video wrkWorld "vid-1" true = Except.ok ⟨[], [], [], []⟩ :=
  ⟨rfl, rfl⟩

/-- Since `np.vstack` would have raised: a successful embedding run implies the
frame list was non-empty. -/
theorem generate_ok_nonempty (encode : Nat → List ℚ) (frames : List Nat)
    (embs : List (List ℚ))
    (h : generate_frame_embeddings encode frames = Except.ok embs) :
    frames ≠ [] := by
  intro hnil
  subst hnil
  simp [generate_frame_embeddings, chunksOf, chunksOfGo] at h

/-- Every write the failure handler produces is either one of the
accumulated writes or a FAILED write. -/
theorem handleFailure_mem (env : WorkerEnv) (body : MsgBody)
    (w : WorldState) (err : String) (tc : Bool)
    (writes : List (String × JobStatus)) :
    ∀ p ∈ (handleFailure env body w err tc writes).statusWrites,
      p ∈ writes ∨ p.2 = JobStatus.failed := by
  intro p hp
  rcases handleFailure_writes env body w err tc writes with h | ⟨jid, h⟩
  · rw [h] at hp
    exact Or.inl hp
  · rw [h] at hp
    rcases List.mem_append.mp hp with h' | h'
    · exact Or.inl h'
    · right
      rw [List.mem_singleton] at h'
      subst h'
      rfl

/-- A member of the optional PROCESSING write list is that write. -/
theorem mem_writes1 {p : String × JobStatus} {jid0 : String} {bb : Bool}
    (h : p ∈ (if bb = true then [(jid0, JobStatus.processing)] else [])) :
    p = (jid0, JobStatus.processing) := by
  cases bb
  · simp at h
  · simpa using h

/-- A member of an optional singleton is that element, and the guard
held. -/
theorem mem_ite_single {α : Type} {p q : α} {bb : Bool}
    (h : p ∈ (if bb = true then [q] else ([] : List α))) :
    p = q ∧ bb = true := by
  cases bb
  · simp at h
  · simpa using h

/-- C10: a run whose decoder yields zero frames cannot succeed — the
batch list handed to `np.vstack` is empty and embedding generation
raises, so the run lands in the failure handler — and consequently any
job marked COMPLETED by a run records at least one processed frame. -/
theorem C10_completed_has_frames (env : WorkerEnv) (body : MsgBody)
    (w : WorldState) :
    (∀ d : ℚ, env.extract = Except.ok ⟨[], d⟩ →
      (process_message env body w).success = false) ∧
    (∀ jid,
      (jid, JobStatus.completed) ∈ (process_message env body w).statusWrites →
      ∃ j, (process_message env body w).world.jobs.find?
          (fun x => x.id == jid) = some j ∧
        j.status = JobStatus.completed ∧
        ∃ n, j.frames_processed = some n ∧ 1 ≤ n) := by
  constructor
  · intro d hd
    cases body with
    | malformed => rfl
    | fields jobId videoId s3Key s3Bucket =>
      cases jobId <;> cases videoId <;> cases s3Key <;> cases s3Bucket <;>
        try rfl
      simp only [process_message]
      split
      · rfl
      · split
        · rfl
        · split
          · rfl
          · rename_i jid vid k b hdl x1 ex hex x2 embs hgen
            rw [hd] at hex
            injection hex with hexx
            rw [← hexx] at hgen
            simp [generate_frame_embeddings, chunksOf, chunksOfGo] at hgen
  · intro jid hmem
    cases body with
    | malformed =>
      rcases handleFailure_mem _ _ _ _ _ _ _ hmem with h' | h'
      · simp at h'
      · simp at h'
    | fields jobId videoId s3Key s3Bucket =>
      cases jobId <;> cases videoId <;> cases s3Key <;> cases s3Bucket <;>
        try (rcases handleFailure_mem _ _ _ _ _ _ _ hmem with h' | h' <;>
          simp at h')
      simp only [process_message] at hmem ⊢
      revert hmem
      split
      · intro hmem
        rcases handleFailure_mem _ _ _ _ _ _ _ hmem with h' | h'
        · have := mem_writes1 h'
          simp at this
        · simp at h'
      · split
        · intro hmem
          rcases handleFailure_mem _ _ _ _ _ _ _ hmem with h' | h'
          · have := mem_writes1 h'
            simp at this
          · simp at h'
        · split
          · intro hmem
            rcases handleFailure_mem _ _ _ _ _ _ _ hmem with h' | h'
            · have := mem_writes1 h'
              simp at this
            · simp at h'
          · intro hmem
            rename_i jid0 vid k b hdl x1 ex hex x2 embs hgen
            rcases List.mem_append.mp hmem with h' | h'
            · have := mem_writes1 h'
              simp at this
            · obtain ⟨hpq, hb⟩ := mem_ite_single h'
              have hjj : jid = jid0 := congrArg Prod.fst hpq
              subst hjj
              rw [update_job_status_bool] at hb
              obtain ⟨j2, hj2⟩ := Option.isSome_iff_exists.mp hb
              refine ⟨_, find?_update_self _ _ _ _ _ hj2, rfl,
                ex.pairs.length, rfl, ?_⟩
              have hne := generate_ok_nonempty _ _ _ hgen
              have : ex.pairs ≠ [] := by
                intro hp
                rw [hp] at hne
                exact hne rfl
              exact List.length_pos.mpr this

/-- C10 witness: running the one-frame environment on the pending job
produces a COMPLETED job whose recorded frame count is 1 ≥ 1. -/
theorem C10_completed_has_frames_witness :
    ∃ j, (process_message envOk msgOk wrkWorld).world.jobs.find?
        (fun x => x.id == "job-1") = some j ∧
      j.status = JobStatus.completed ∧
      ∃ n, j.frames_processed = some n ∧ 1 ≤ n :=
  (C10_completed_has_frames envOk msgOk wrkWorld).2 "job-1" (by decide)
